import Mathlib

/-!
Verification of the botogram callback-token protocol (`botogram/callbacks.py`).

The embedding models Python byte strings as `List Nat` (each element a byte
value) and Python `str` values as lists of Unicode code points (`List Nat`).
The cryptographic primitives live in `botogram/crypto.py`, which is not part
of the sources under verification; they are modelled from the spec's stated
contract (a deterministic `keyed-hash(key, message) -> bytes` with a fixed
16-byte output, and a constant-time comparison that decides byte equality).
-/

/-- Python byte strings: lists of byte values. -/
abbrev Bytes := List Nat

/-- Python `str` values: lists of Unicode code points. -/
abbrev Str := List Nat

/-- A Unicode scalar value: a code point that UTF-8 can encode
(below 0x110000 and not a surrogate). -/
abbrev ValidScalar (c : Nat) : Prop := c < 0x110000 ∧ (c < 0xD800 ∨ 0xE000 ≤ c)

/-- UTF-8 encoding of one code point (the byte sequence Python's
`str.encode("utf-8")` produces for a scalar value). -/
def utf8EncodeChar (c : Nat) : Bytes :=
  if c < 0x80 then [c]
  else if c < 0x800 then [0xC0 + c / 64, 0x80 + c % 64]
  else if c < 0x10000 then [0xE0 + c / 4096, 0x80 + c / 64 % 64, 0x80 + c % 64]
  else [0xF0 + c / 262144, 0x80 + c / 4096 % 64, 0x80 + c / 64 % 64, 0x80 + c % 64]

/-- UTF-8 encoding of a string (`str.encode("utf-8")`). -/
def utf8Encode (s : Str) : Bytes := s.flatMap utf8EncodeChar

/-- Strict UTF-8 decoding (`bytes.decode("utf-8")`), as a byte-at-a-time
automaton. The state carries a pending multi-byte sequence: how many
continuation bytes remain, the accumulated code-point bits, and the
admissible range of the next byte. The range of the first continuation
byte depends on the lead byte exactly as in strict UTF-8, which rejects
overlong forms, surrogates and code points above 0x10FFFF; later
continuation bytes must lie in [0x80, 0xC0). -/
def utf8DecodeSt : Option (Nat × Nat × Nat × Nat) → Bytes → Except Unit Str
  | none, [] => .ok []
  | some _, [] => .error ()
  | none, b :: rest =>
    if b < 0x80 then
      match utf8DecodeSt none rest with
      | .ok s => .ok (b :: s)
      | .error e => .error e
    else if b < 0xC2 then .error ()
    else if b < 0xE0 then utf8DecodeSt (some (1, b - 0xC0, 0x80, 0xC0)) rest
    else if b = 0xE0 then utf8DecodeSt (some (2, 0, 0xA0, 0xC0)) rest
    else if b = 0xED then utf8DecodeSt (some (2, 13, 0x80, 0xA0)) rest
    else if b < 0xF0 then utf8DecodeSt (some (2, b - 0xE0, 0x80, 0xC0)) rest
    else if b = 0xF0 then utf8DecodeSt (some (3, 0, 0x90, 0xC0)) rest
    else if b = 0xF4 then utf8DecodeSt (some (3, 4, 0x80, 0x90)) rest
    else if b < 0xF5 then utf8DecodeSt (some (3, b - 0xF0, 0x80, 0xC0)) rest
    else .error ()
  | some (k, acc, lo, hi), b :: rest =>
    if lo ≤ b ∧ b < hi then
      if k = 1 then
        match utf8DecodeSt none rest with
        | .ok s => .ok ((acc * 64 + (b - 0x80)) :: s)
        | .error e => .error e
      else utf8DecodeSt (some (k - 1, acc * 64 + (b - 0x80), 0x80, 0xC0)) rest
    else .error ()

/-- Model of `bytes.decode("utf-8")`: run the automaton from the idle state. -/
def utf8Decode (bs : Bytes) : Except Unit Str := utf8DecodeSt none bs

/-- The base64 alphabet (RFC 4648): maps a 6-bit value to its ASCII byte. -/
def b64Char (n : Nat) : Nat :=
  if n < 26 then 65 + n
  else if n < 52 then 97 + (n - 26)
  else if n < 62 then 48 + (n - 52)
  else if n = 62 then 43
  else 47

/-- Inverse of the base64 alphabet: `none` on bytes outside it. -/
def b64Val (b : Nat) : Option Nat :=
  if 65 ≤ b ∧ b ≤ 90 then some (b - 65)
  else if 97 ≤ b ∧ b ≤ 122 then some (b - 97 + 26)
  else if 48 ≤ b ∧ b ≤ 57 then some (b - 48 + 52)
  else if b = 43 then some 62
  else if b = 47 then some 63
  else none

/-- Model of `base64.b64encode`: standard base64 with `=` (byte 61) padding. -/
def b64encode : Bytes → Bytes
  | a :: b :: c :: rest =>
      b64Char (a / 4) :: b64Char (a % 4 * 16 + b / 16) ::
        b64Char (b % 16 * 4 + c / 64) :: b64Char (c % 64) :: b64encode rest
  | [a, b] => [b64Char (a / 4), b64Char (a % 4 * 16 + b / 16), b64Char (b % 16 * 4), 61]
  | [a] => [b64Char (a / 4), b64Char (a % 4 * 16), 61, 61]
  | [] => []

/-- Turn a run of 6-bit values back into bytes; a trailing group of two or
three values carries one or two bytes (the padded cases). -/
def b64decodeCore : List Nat → Bytes
  | a :: b :: c :: d :: rest =>
      (a * 4 + b / 16) :: (b % 16 * 16 + c / 4) :: (c % 4 * 64 + d) :: b64decodeCore rest
  | [a, b, c] => [a * 4 + b / 16, b % 16 * 16 + c / 4]
  | [a, b] => [a * 4 + b / 16]
  | [_] => []
  | [] => []

/-- Model of `base64.b64decode` with `validate=False` (the default, used by the
source): bytes outside the alphabet are discarded, data characters stop at
the first `=`, and the total of data plus padding characters must fill the
last quad, else `binascii.Error` is raised. -/
def b64decodePy (bs : Bytes) : Except Unit Bytes :=
  let cs := bs.filter fun b => (b64Val b).isSome || b == 61
  let ds := cs.takeWhile fun b => b != 61
  let pads := cs.length - ds.length
  let vs := ds.map fun b => (b64Val b).getD 0
  if ds.length % 4 == 0 then .ok (b64decodeCore vs)
  else if ds.length % 4 == 1 then .error ()
  else if 4 - ds.length % 4 ≤ pads then .ok (b64decodeCore vs)
  else .error ()

example : b64encode [77, 97, 110] = [84, 87, 70, 117] := rfl
example : b64decodePy [84, 87, 70, 117] = .ok [77, 97, 110] := rfl
example : b64encode [77, 97] = [84, 87, 69, 61] := rfl
example : b64decodePy (b64encode [77, 97]) = .ok [77, 97] := rfl
example : b64decodePy (b64encode [77]) = .ok [77] := rfl
example : b64decodePy [65, 33, 33, 33] = .error () := rfl
example : b64decodePy [33, 33, 33, 33] = .ok [] := rfl

/-- Decimal ASCII digits of a natural number, least significant first.
The first argument is fuel; any fuel at least the digit count is enough. -/
def natDigitsRev : Nat → Nat → List Nat
  | 0, _ => []
  | f + 1, n => if n = 0 then [] else (48 + n % 10) :: natDigitsRev f (n / 10)

/-- ASCII bytes of Python's `str` applied to a natural number. -/
def strOfNat (n : Nat) : Bytes :=
  if n = 0 then [48] else (natDigitsRev (n + 1) n).reverse

/-- ASCII bytes of Python's `str` applied to an integer
(a leading `-`, byte 45, for negative values). -/
def strOfInt : Int → Bytes
  | .ofNat n => strOfNat n
  | .negSucc n => 45 :: strOfNat (n + 1)

example : strOfInt 77 = [55, 55] := rfl
example : strOfInt (-102) = [45, 49, 48, 50] := rfl
example : strOfInt 0 = [48] := rfl

/-- The error conditions the embedded code can signal. `tamperedMessage` is
`crypto.TamperedMessageError`, `valueError` is Python's `ValueError`
(oversized payload), and `unicodeDecodeError` is Python's
`UnicodeDecodeError` (raised by `bytes.decode("utf-8")` and not caught by
`parse_callback_data`). -/
inductive PyError
  | tamperedMessage
  | valueError
  | unicodeDecodeError
  deriving DecidableEq, Repr

/-- Modelled from the spec: the bot instance, reduced to what this core
reads from it — the keyed hash `crypto.get_hmac(bot, message)`, whose
bot-scoped secret key is folded into the function. The spec's crypto
contract is a deterministic `keyed-hash(key, message) -> bytes` with a
fixed 16-byte digest. -/
structure PyBot where
  hmac : Bytes → Bytes

/-- A chat, reduced to the stable identifier the core reads (`chat.id`). -/
structure Chat where
  id : Int
  deriving DecidableEq, Repr

/-- Modelled from the spec: `crypto.get_hmac` (the crypto module is outside
the verified sources); it applies the bot's keyed hash to the message. -/
def crypto.get_hmac (bot : PyBot) (message : Bytes) : Bytes := bot.hmac message

/-- Modelled from the spec: `crypto.compare`, the constant-time comparison;
its contract is to decide equality of the two byte strings (the timing
behaviour is not observable in this embedding). -/
def crypto.compare (a b : Bytes) : Bool := a == b

/-- Modelled from the spec: `hashlib.md5` (`DIGEST` in the source) is an
external library primitive; the spec requires only a deterministic,
fixed-width cryptographic digest of the input bytes, modelled here as a
concrete 16-byte mixing function. -/
def modelDigest (msg : Bytes) : Bytes :=
  let h := msg.foldl (fun acc b => (acc * 131 + b + 1) % 2 ^ 128) 0x9E3779B97F4A7C15
  (List.range 16).map fun i => h / 2 ^ (8 * i) % 256

/-- A concrete keyed hash used to instantiate `Bot.hmac` in witnesses:
deterministic, 16-byte output, as the spec's crypto contract demands. -/
def modelHmac (msg : Bytes) : Bytes :=
  let h := msg.foldl (fun acc b => (acc * 257 + b + 3) % 2 ^ 128) 0xC2B2AE3D27D4EB4F
  (List.range 16).map fun i => h / 2 ^ (8 * i) % 256

/-- Source `hashed_callback_name`: the first 8 bytes of the digest of the
callback name's UTF-8 encoding. -/
def hashed_callback_name (name : Str) : Bytes :=
  (modelDigest (utf8Encode name)).take 8

/-- Source `get_signature`: the keyed digest of
`hashedName || 0x00 || str(chat.id) as UTF-8 || 0x00 || data`. -/
def get_signature (bot : PyBot) (chat : Chat) (name data : Bytes) : Bytes :=
  crypto.get_hmac bot (name ++ [0] ++ strOfInt chat.id ++ [0] ++ data)

/-- Source `get_callback_data`: hash the name, reject payloads whose UTF-8
encoding exceeds 32 bytes with `ValueError`, then return
`(base64.b64encode(signature + name) + data).decode("utf-8")`. -/
def get_callback_data (bot : PyBot) (chat : Chat) (nameS : Str)
    (dataS : Option Str) : Except PyError Str :=
  let name := hashed_callback_name nameS
  let data := utf8Encode (dataS.getD [])
  if data.length > 32 then .error .valueError
  else
    let signature := get_signature bot chat name data
    match utf8Decode (b64encode (signature ++ name) ++ data) with
    | .ok t => .ok t
    | .error _ => .error .unicodeDecodeError

/-- Source `parse_callback_data`: UTF-8 encode the raw string; reject inputs
shorter than 32 bytes and base64 failures of the 32-byte prefix as
tampered; split the decoded prelude into a 16-byte signature and the
hashed name; recompute the signature over the name, chat and trailing
payload bytes and reject mismatches as tampered; finally UTF-8 decode a
non-empty payload (an undecodable payload raises `UnicodeDecodeError`,
which the source does not catch) or return `None` for an empty one. -/
def parse_callback_data (bot : PyBot) (chat : Chat) (rawS : Str) :
    Except PyError (Bytes × Option Str) :=
  let raw := utf8Encode rawS
  if raw.length < 32 then .error .tamperedMessage
  else
    match b64decodePy (raw.take 32) with
    | .error _ => .error .tamperedMessage
    | .ok prelude =>
      let signature := prelude.take 16
      let name := prelude.drop 16
      let data := raw.drop 32
      let correct := get_signature bot chat name data
      if ¬ crypto.compare correct signature then .error .tamperedMessage
      else if data ≠ [] then
        match utf8Decode data with
        | .ok s => .ok (name, some s)
        | .error _ => .error .unicodeDecodeError
      else .ok (name, none)

deriving instance DecidableEq for Except

set_option maxRecDepth 10000

/-- A cell stored in a `ButtonsRow`. A callback cell keeps the
component-scoped callback name and optional payload captured by the lazy
`callback_data` closure (the ambient `ctx()` lookup of the source is made
explicit: bot and chat arrive at serialization time). -/
inductive RowItem
  | urlBtn (text url : Str)
  | callbackBtn (text name : Str) (data : Option Str)
  | switchInline (text query : Str) (currentChat : Bool)
  deriving DecidableEq, Repr

/-- A serialized button cell: the wire dictionaries the source emits, one
constructor per distinct field set. -/
inductive RenderedItem
  | urlBtn (text url : Str)
  | callbackBtn (text callback_data : Str)
  | switchInlineQuery (text query : Str)
  | switchInlineQueryCurrentChat (text query : Str)
  deriving DecidableEq, Repr

/-- Source `ButtonsRow`: an append-only row of cells (`_content`). -/
structure ButtonsRow where
  content : List RowItem
  deriving DecidableEq, Repr

/-- Source `ButtonsRow.url`: append an URL button. -/
def ButtonsRow.url (r : ButtonsRow) (label url : Str) : ButtonsRow :=
  ⟨r.content ++ [.urlBtn label url]⟩

/-- Source `ButtonsRow.callback`: append a callback button; `name` is the
component-scoped callback name the closure would build. -/
def ButtonsRow.callback (r : ButtonsRow) (label name : Str) (data : Option Str) :
    ButtonsRow :=
  ⟨r.content ++ [.callbackBtn label name data]⟩

/-- Source `ButtonsRow.switch_inline_query`: append a switch-inline-query button. -/
def ButtonsRow.switch_inline_query (r : ButtonsRow) (label query : Str)
    (currentChat : Bool) : ButtonsRow :=
  ⟨r.content ++ [.switchInline label query currentChat]⟩

/-- Resolve one cell at serialization time: callback cells invoke
`get_callback_data` (the source's lazy closure), everything else is
emitted verbatim. -/
def renderItem (bot : PyBot) (chat : Chat) : RowItem → Except PyError RenderedItem
  | .urlBtn t u => .ok (.urlBtn t u)
  | .callbackBtn t n d => (get_callback_data bot chat n d).map (RenderedItem.callbackBtn t)
  | .switchInline t q cc =>
      .ok (if cc then .switchInlineQueryCurrentChat t q else .switchInlineQuery t q)

/-- Source `ButtonsRow._get_content`: resolve every cell of the row in order. -/
def ButtonsRow.get_content (bot : PyBot) (chat : Chat) (r : ButtonsRow) :
    Except PyError (List RenderedItem) :=
  r.content.mapM (renderItem bot chat)

/-- Source `Buttons`: the sparse grid. `rows` is the Python dict `_rows` as an
insertion-ordered association list with distinct integer keys. -/
structure Buttons where
  rows : List (Int × ButtonsRow)
  deriving DecidableEq, Repr

/-- Source `buttons()`: a fresh empty keyboard. -/
def buttons : Buttons := ⟨[]⟩

/-- Source `Buttons.__getitem__`: auto-vivify the row at `index` (insert an empty
row at the end of the dict if the key is absent). -/
def Buttons.getItem (b : Buttons) (index : Int) : Buttons :=
  if b.rows.any (fun p => p.1 == index) then b else ⟨b.rows ++ [(index, ⟨[]⟩)]⟩

/-- Helper `Buttons.modifyRow`: run a row-mutating operation through the grid at
`index`, vivifying the row first exactly as `keyboard[index].f(...)` does. -/
def Buttons.modifyRow (b : Buttons) (index : Int) (f : ButtonsRow → ButtonsRow) :
    Buttons :=
  let b := b.getItem index
  ⟨b.rows.map fun p => if p.1 == index then (p.1, f p.2) else p⟩

/-- Insert a keyed row into a list sorted by key, keeping it sorted. -/
def insertRow (p : Int × ButtonsRow) : List (Int × ButtonsRow) → List (Int × ButtonsRow)
  | [] => [p]
  | q :: l => if p.1 ≤ q.1 then p :: q :: l else q :: insertRow p l

/-- Source `sorted(rows.items(), key=lambda i: i[0])`: sort the dict items by
ascending row index. -/
def sortRows : List (Int × ButtonsRow) → List (Int × ButtonsRow)
  | [] => []
  | p :: l => insertRow p (sortRows l)

/-- Source `Buttons._serialize_attachment`: resolve the rows in ascending index
order (the value of the `"inline_keyboard"` key of the emitted dict). -/
def Buttons.serialize_attachment (bot : PyBot) (chat : Chat) (b : Buttons) :
    Except PyError (List (List RenderedItem)) :=
  (sortRows b.rows).mapM fun p => p.2.get_content bot chat

/-- A Python value returned by a hook, as far as the dispatcher inspects
it: the source compares the result against the `True` singleton. -/
inductive PyVal
  | pyBool (b : Bool)
  | pyInt (n : Int)
  | pyNone
  | pyStr (s : Str)
  deriving DecidableEq, Repr

/-- The source's `result is True` test: only the boolean `True` passes. -/
def isTrueVal : PyVal → Bool
  | .pyBool b => b
  | _ => false

/-- Modelled from the spec: the claim's notion of a "true-equivalent
result", i.e. Python truthiness, used to compare the dispatcher's actual
stop condition against the spec's wording. -/
def truthy : PyVal → Bool
  | .pyBool b => b
  | .pyInt n => n != 0
  | .pyNone => false
  | .pyStr s => s != []

/-- An incoming update, reduced to the fields `process` reads:
`update.update_id`, `update.callback_query.message.chat` and
`update.callback_query._data`. -/
structure Update where
  update_id : Nat
  chat : Chat
  data : Str

/-- A registered callback hook: its diagnostic name and its `call`
behaviour, modelled as a pure function of the dispatch arguments
`(bot, update, hashed name, payload)`. -/
structure Hook where
  name : Str
  call : PyBot → Update → Bytes → Option Str → PyVal

/-- The observable behaviour of `process`: each constructor is one logger
call the source makes, in order; a `debugProcessing` event records that the
named hook was invoked (`hook.call` directly follows that log line). -/
inductive LogEvent
  | warnTampered (updateId : Nat)
  | debugProcessing (updateId : Nat) (hookName : Str)
  | debugHandled (updateId : Nat) (hookName : Str)
  | debugUnclaimed (updateId : Nat)
  deriving DecidableEq, Repr

/-- The hook loop of `process`: log and invoke each hook in registration
order, stopping when a hook's result `is True`; log unclaimed updates. -/
def processHooks (bot : PyBot) (update : Update) (name : Bytes)
    (data : Option Str) : List Hook → List LogEvent
  | [] => [.debugUnclaimed update.update_id]
  | h :: hs =>
    if isTrueVal (h.call bot update name data) then
      [.debugProcessing update.update_id h.name, .debugHandled update.update_id h.name]
    else
      .debugProcessing update.update_id h.name :: processHooks bot update name data hs

/-- Source `process`: parse the callback data of the update; a tampered token is
logged at warning level and the update dropped; other exceptions of
`parse_callback_data` propagate (only `crypto.TamperedMessageError` is
caught); on success the hooks run through `processHooks`. -/
def process (bot : PyBot) (chains : List Hook) (update : Update) :
    Except PyError (List LogEvent) :=
  match parse_callback_data bot update.chat update.data with
  | .error .tamperedMessage => .ok [.warnTampered update.update_id]
  | .error e => .error e
  | .ok (name, data) => .ok (processHooks bot update name data chains)

theorem utf8EncodeChar_length_pos (c : Nat) : 0 < (utf8EncodeChar c).length := by
  unfold utf8EncodeChar
  split_ifs <;> simp

theorem utf8Encode_nil : utf8Encode [] = [] := rfl

theorem utf8Encode_cons (c : Nat) (s : Str) :
    utf8Encode (c :: s) = utf8EncodeChar c ++ utf8Encode s := by
  simp [utf8Encode]

theorem utf8Encode_append (s t : Str) :
    utf8Encode (s ++ t) = utf8Encode s ++ utf8Encode t := by
  simp [utf8Encode]

theorem utf8Encode_eq_nil_iff (s : Str) : utf8Encode s = [] ↔ s = [] := by
  cases s with
  | nil => simp [utf8Encode]
  | cons c s =>
    simp only [utf8Encode_cons, List.append_eq_nil]
    constructor
    · intro h
      have h1 := utf8EncodeChar_length_pos c
      rw [h.1] at h1
      simp at h1
    · intro h
      exact absurd h (by simp)

theorem utf8Step_ascii (b : Nat) (rest : Bytes) (h : b < 0x80) :
    utf8DecodeSt none (b :: rest) =
      match utf8DecodeSt none rest with
      | .ok s => .ok (b :: s)
      | .error e => .error e := by
  rw [utf8DecodeSt]
  exact if_pos h

theorem utf8Step_lead2 (b : Nat) (rest : Bytes) (h1 : 0xC2 ≤ b) (h2 : b < 0xE0) :
    utf8DecodeSt none (b :: rest) = utf8DecodeSt (some (1, b - 0xC0, 0x80, 0xC0)) rest := by
  rw [utf8DecodeSt]
  rw [if_neg (by omega)]
  rw [if_neg (by omega)]
  exact if_pos h2

theorem utf8Step_leadE0 (rest : Bytes) :
    utf8DecodeSt none (0xE0 :: rest) = utf8DecodeSt (some (2, 0, 0xA0, 0xC0)) rest := by
  rw [utf8DecodeSt]
  norm_num

theorem utf8Step_leadED (rest : Bytes) :
    utf8DecodeSt none (0xED :: rest) = utf8DecodeSt (some (2, 13, 0x80, 0xA0)) rest := by
  rw [utf8DecodeSt]
  norm_num

theorem utf8Step_lead3 (b : Nat) (rest : Bytes) (h1 : 0xE0 < b) (h2 : b < 0xF0)
    (h3 : b ≠ 0xED) :
    utf8DecodeSt none (b :: rest) = utf8DecodeSt (some (2, b - 0xE0, 0x80, 0xC0)) rest := by
  rw [utf8DecodeSt]
  rw [if_neg (by omega)]
  rw [if_neg (by omega)]
  rw [if_neg (by omega)]
  rw [if_neg (by omega)]
  rw [if_neg h3]
  exact if_pos h2

theorem utf8Step_leadF0 (rest : Bytes) :
    utf8DecodeSt none (0xF0 :: rest) = utf8DecodeSt (some (3, 0, 0x90, 0xC0)) rest := by
  rw [utf8DecodeSt]
  norm_num

theorem utf8Step_leadF4 (rest : Bytes) :
    utf8DecodeSt none (0xF4 :: rest) = utf8DecodeSt (some (3, 4, 0x80, 0x90)) rest := by
  rw [utf8DecodeSt]
  norm_num

theorem utf8Step_lead4 (b : Nat) (rest : Bytes) (h1 : 0xF0 < b) (h2 : b < 0xF5)
    (h3 : b ≠ 0xF4) :
    utf8DecodeSt none (b :: rest) = utf8DecodeSt (some (3, b - 0xF0, 0x80, 0xC0)) rest := by
  rw [utf8DecodeSt]
  rw [if_neg (by omega)]
  rw [if_neg (by omega)]
  rw [if_neg (by omega)]
  rw [if_neg (by omega)]
  rw [if_neg (by omega)]
  rw [if_neg (by omega)]
  rw [if_neg (by omega)]
  rw [if_neg h3]
  exact if_pos h2

theorem utf8Step_contEnd (acc lo hi b : Nat) (rest : Bytes) (hb : lo ≤ b ∧ b < hi) :
    utf8DecodeSt (some (1, acc, lo, hi)) (b :: rest) =
      match utf8DecodeSt none rest with
      | .ok s => .ok ((acc * 64 + (b - 0x80)) :: s)
      | .error e => .error e := by
  rw [utf8DecodeSt]
  rw [if_pos hb]
  exact if_pos rfl

theorem utf8Step_contMore (k acc lo hi b : Nat) (rest : Bytes)
    (hb : lo ≤ b ∧ b < hi) (hk : k ≠ 1) :
    utf8DecodeSt (some (k, acc, lo, hi)) (b :: rest) =
      utf8DecodeSt (some (k - 1, acc * 64 + (b - 0x80), 0x80, 0xC0)) rest := by
  rw [utf8DecodeSt]
  rw [if_pos hb]
  exact if_neg hk

theorem utf8Decode_encodeChar_append (c : Nat) (hc : ValidScalar c) (t : Bytes) :
    utf8DecodeSt none (utf8EncodeChar c ++ t) =
      match utf8DecodeSt none t with
      | .ok s => .ok (c :: s)
      | .error e => .error e := by
  obtain ⟨hlt, hsur⟩ := hc
  by_cases h1 : c < 0x80
  · have he : utf8EncodeChar c = [c] := by unfold utf8EncodeChar; rw [if_pos h1]
    rw [he]
    exact utf8Step_ascii c t h1
  · by_cases h2 : c < 0x800
    · have he : utf8EncodeChar c = [0xC0 + c / 64, 0x80 + c % 64] := by
        unfold utf8EncodeChar; rw [if_neg h1, if_pos h2]
      rw [he]
      show utf8DecodeSt none ((0xC0 + c / 64) :: (0x80 + c % 64) :: t) = _
      rw [utf8Step_lead2 _ _ (by omega) (by omega)]
      rw [utf8Step_contEnd _ _ _ _ _ ⟨by omega, by omega⟩]
      have hv : (0xC0 + c / 64 - 0xC0) * 64 + (0x80 + c % 64 - 0x80) = c := by omega
      rw [hv]
    · by_cases h3 : c < 0x10000
      · have he : utf8EncodeChar c =
            [0xE0 + c / 4096, 0x80 + c / 64 % 64, 0x80 + c % 64] := by
          unfold utf8EncodeChar; rw [if_neg h1, if_neg h2, if_pos h3]
        rw [he]
        show utf8DecodeSt none
          ((0xE0 + c / 4096) :: (0x80 + c / 64 % 64) :: (0x80 + c % 64) :: t) = _
        by_cases hA : c < 0x1000
        · rw [show 0xE0 + c / 4096 = 0xE0 from by omega]
          rw [utf8Step_leadE0]
          rw [utf8Step_contMore _ _ _ _ _ _ ⟨by omega, by omega⟩ (by omega)]
          rw [utf8Step_contEnd _ _ _ _ _ ⟨by omega, by omega⟩]
          have hv : ((0 : Nat) * 64 + (0x80 + c / 64 % 64 - 0x80)) * 64 +
              (0x80 + c % 64 - 0x80) = c := by omega
          rw [hv]
        · by_cases hB : 0xD000 ≤ c ∧ c < 0xE000
          · have hs : c < 0xD800 := by omega
            rw [show 0xE0 + c / 4096 = 0xED from by omega]
            rw [utf8Step_leadED]
            rw [utf8Step_contMore _ _ _ _ _ _ ⟨by omega, by omega⟩ (by omega)]
            rw [utf8Step_contEnd _ _ _ _ _ ⟨by omega, by omega⟩]
            have hv : ((13 : Nat) * 64 + (0x80 + c / 64 % 64 - 0x80)) * 64 +
                (0x80 + c % 64 - 0x80) = c := by omega
            rw [hv]
          · rw [utf8Step_lead3 _ _ (by omega) (by omega) (by omega)]
            rw [utf8Step_contMore _ _ _ _ _ _ ⟨by omega, by omega⟩ (by omega)]
            rw [utf8Step_contEnd _ _ _ _ _ ⟨by omega, by omega⟩]
            have hv : ((0xE0 + c / 4096 - 0xE0) * 64 + (0x80 + c / 64 % 64 - 0x80)) *
                64 + (0x80 + c % 64 - 0x80) = c := by omega
            rw [hv]
      · have he : utf8EncodeChar c =
            [0xF0 + c / 262144, 0x80 + c / 4096 % 64, 0x80 + c / 64 % 64,
              0x80 + c % 64] := by
          unfold utf8EncodeChar; rw [if_neg h1, if_neg h2, if_neg h3]
        rw [he]
        show utf8DecodeSt none ((0xF0 + c / 262144) :: (0x80 + c / 4096 % 64) ::
          (0x80 + c / 64 % 64) :: (0x80 + c % 64) :: t) = _
        by_cases hA : c < 0x40000
        · rw [show 0xF0 + c / 262144 = 0xF0 from by omega]
          rw [utf8Step_leadF0]
          rw [utf8Step_contMore _ _ _ _ _ _ ⟨by omega, by omega⟩ (by omega)]
          rw [utf8Step_contMore _ _ _ _ _ _ ⟨by omega, by omega⟩ (by omega)]
          rw [utf8Step_contEnd _ _ _ _ _ ⟨by omega, by omega⟩]
          have hv : (((0 : Nat) * 64 + (0x80 + c / 4096 % 64 - 0x80)) * 64 +
              (0x80 + c / 64 % 64 - 0x80)) * 64 + (0x80 + c % 64 - 0x80) = c := by
            omega
          rw [hv]
        · by_cases hB : 0x100000 ≤ c
          · rw [show 0xF0 + c / 262144 = 0xF4 from by omega]
            rw [utf8Step_leadF4]
            rw [utf8Step_contMore _ _ _ _ _ _ ⟨by omega, by omega⟩ (by omega)]
            rw [utf8Step_contMore _ _ _ _ _ _ ⟨by omega, by omega⟩ (by omega)]
            rw [utf8Step_contEnd _ _ _ _ _ ⟨by omega, by omega⟩]
            have hv : (((4 : Nat) * 64 + (0x80 + c / 4096 % 64 - 0x80)) * 64 +
                (0x80 + c / 64 % 64 - 0x80)) * 64 + (0x80 + c % 64 - 0x80) = c := by
              omega
            rw [hv]
          · rw [utf8Step_lead4 _ _ (by omega) (by omega) (by omega)]
            rw [utf8Step_contMore _ _ _ _ _ _ ⟨by omega, by omega⟩ (by omega)]
            rw [utf8Step_contMore _ _ _ _ _ _ ⟨by omega, by omega⟩ (by omega)]
            rw [utf8Step_contEnd _ _ _ _ _ ⟨by omega, by omega⟩]
            have hv : (((0xF0 + c / 262144 - 0xF0) * 64 +
                (0x80 + c / 4096 % 64 - 0x80)) * 64 + (0x80 + c / 64 % 64 - 0x80)) *
                64 + (0x80 + c % 64 - 0x80) = c := by omega
            rw [hv]

theorem utf8Decode_encode_append (s : Str) (t : Bytes)
    (hs : ∀ c ∈ s, ValidScalar c) :
    utf8DecodeSt none (utf8Encode s ++ t) =
      match utf8DecodeSt none t with
      | .ok u => .ok (s ++ u)
      | .error e => .error e := by
  induction s with
  | nil =>
    simp only [utf8Encode_nil, List.nil_append]
    cases utf8DecodeSt none t <;> simp
  | cons c s ih =>
    rw [utf8Encode_cons, List.append_assoc,
      utf8Decode_encodeChar_append c (hs c (by simp)) _,
      ih (fun x hx => hs x (by simp [hx]))]
    cases utf8DecodeSt none t <;> simp

theorem utf8Decode_encode (s : Str) (hs : ∀ c ∈ s, ValidScalar c) :
    utf8Decode (utf8Encode s) = .ok s := by
  show utf8DecodeSt none (utf8Encode s) = .ok s
  have h := utf8Decode_encode_append s [] hs
  rw [List.append_nil] at h
  rw [h, utf8DecodeSt.eq_1]
  simp

theorem utf8Encode_ascii (l : Bytes) (hl : ∀ b ∈ l, b < 0x80) :
    utf8Encode l = l := by
  induction l with
  | nil => exact utf8Encode_nil
  | cons b l ih =>
    rw [utf8Encode_cons]
    have hb : utf8EncodeChar b = [b] := by
      unfold utf8EncodeChar; rw [if_pos (hl b (by simp))]
    rw [hb, ih (fun x hx => hl x (by simp [hx]))]
    rfl

theorem b64Val_b64Char : ∀ n, n < 64 → b64Val (b64Char n) = some n := by decide

theorem b64Char_lt128 (n : Nat) : b64Char n < 128 := by
  unfold b64Char; split_ifs <;> omega

theorem b64Char_ne61 (n : Nat) : b64Char n ≠ 61 := by
  unfold b64Char; split_ifs <;> omega

theorem b64encode_cons3 (a b c : Nat) (rest : Bytes) :
    b64encode (a :: b :: c :: rest) =
      b64Char (a / 4) :: b64Char (a % 4 * 16 + b / 16) ::
        b64Char (b % 16 * 4 + c / 64) :: b64Char (c % 64) :: b64encode rest := by
  rw [b64encode]

theorem mem_b64encode_of_mod3 (l : Bytes) (h3 : l.length % 3 = 0)
    (hb : ∀ b ∈ l, b < 256) :
    ∀ x ∈ b64encode l, ∃ v, v < 64 ∧ x = b64Char v := by
  induction l using b64encode.induct with
  | case1 a b c rest ih =>
    intro x hx
    rw [b64encode_cons3] at hx
    have ha : a < 256 := hb a (by simp)
    have hbb : b < 256 := hb b (by simp)
    have hc : c < 256 := hb c (by simp)
    simp only [List.mem_cons] at hx
    rcases hx with h | h | h | h | h
    · exact ⟨a / 4, by omega, h⟩
    · exact ⟨a % 4 * 16 + b / 16, by omega, h⟩
    · exact ⟨b % 16 * 4 + c / 64, by omega, h⟩
    · exact ⟨c % 64, by omega, h⟩
    · have : rest.length % 3 = 0 := by simp at h3; omega
      exact ih this (fun y hy => hb y (by simp [hy])) x h
  | case2 a b => simp at h3
  | case3 a => simp at h3
  | case4 => simp [b64encode]

theorem b64encode_length (l : Bytes) (h3 : l.length % 3 = 0) :
    (b64encode l).length = l.length / 3 * 4 := by
  induction l using b64encode.induct with
  | case1 a b c rest ih =>
    rw [b64encode_cons3]
    have h : rest.length % 3 = 0 := by simp at h3; omega
    simp only [List.length_cons, ih h]
    omega
  | case2 a b => simp at h3
  | case3 a => simp at h3
  | case4 => simp [b64encode]

theorem b64decodeCore_encode (l : Bytes) (h3 : l.length % 3 = 0)
    (hb : ∀ b ∈ l, b < 256) :
    b64decodeCore ((b64encode l).map fun b => (b64Val b).getD 0) = l := by
  induction l using b64encode.induct with
  | case1 a b c rest ih =>
    have ha : a < 256 := hb a (by simp)
    have hbb : b < 256 := hb b (by simp)
    have hc : c < 256 := hb c (by simp)
    rw [b64encode_cons3]
    simp only [List.map_cons]
    rw [b64Val_b64Char _ (by omega), b64Val_b64Char _ (by omega),
      b64Val_b64Char _ (by omega), b64Val_b64Char _ (by omega)]
    simp only [Option.getD_some]
    rw [b64decodeCore]
    have h : rest.length % 3 = 0 := by simp at h3; omega
    rw [ih h (fun y hy => hb y (by simp [hy]))]
    have e1 : a / 4 * 4 + (a % 4 * 16 + b / 16) / 16 = a := by omega
    have e2 : (a % 4 * 16 + b / 16) % 16 * 16 + (b % 16 * 4 + c / 64) / 4 = b := by
      omega
    have e3 : (b % 16 * 4 + c / 64) % 4 * 64 + c % 64 = c := by omega
    rw [e1, e2, e3]
  | case2 a b => simp at h3
  | case3 a => simp at h3
  | case4 => simp [b64encode, b64decodeCore]

theorem takeWhile_all {p : Nat → Bool} (l : List Nat) (h : ∀ x ∈ l, p x = true) :
    l.takeWhile p = l := by
  induction l with
  | nil => simp
  | cons a l ih =>
    rw [List.takeWhile_cons, if_pos (h a (by simp))]
    rw [ih (fun y hy => h y (by simp [hy]))]

theorem b64decodePy_encode (l : Bytes) (h3 : l.length % 3 = 0)
    (hb : ∀ b ∈ l, b < 256) : b64decodePy (b64encode l) = .ok l := by
  have hmem := mem_b64encode_of_mod3 l h3 hb
  have hfil : (b64encode l).filter (fun b => (b64Val b).isSome || b == 61) =
      b64encode l := by
    rw [List.filter_eq_self]
    intro x hx
    obtain ⟨v, hv, rfl⟩ := hmem x hx
    rw [b64Val_b64Char v hv]
    rfl
  have htw : (b64encode l).takeWhile (fun b => b != 61) = b64encode l := by
    apply takeWhile_all
    intro x hx
    obtain ⟨v, hv, rfl⟩ := hmem x hx
    simpa using b64Char_ne61 v
  unfold b64decodePy
  simp only [hfil, htw]
  rw [b64encode_length l h3]
  have hm : l.length / 3 * 4 % 4 = 0 := by omega
  simp only [hm]
  rw [if_pos (show ((0 : Nat) == 0) = true from rfl)]
  rw [b64decodeCore_encode l h3 hb]

theorem mem_b64encode_lt128 (l : Bytes) : ∀ x ∈ b64encode l, x < 128 := by
  induction l using b64encode.induct with
  | case1 a b c rest ih =>
    intro x hx
    rw [b64encode_cons3] at hx
    simp only [List.mem_cons] at hx
    rcases hx with h | h | h | h | h
    · exact h ▸ b64Char_lt128 _
    · exact h ▸ b64Char_lt128 _
    · exact h ▸ b64Char_lt128 _
    · exact h ▸ b64Char_lt128 _
    · exact ih x h
  | case2 a b =>
    intro x hx
    rw [b64encode] at hx
    simp only [List.mem_cons] at hx
    rcases hx with h | h | h | h
    · exact h ▸ b64Char_lt128 _
    · exact h ▸ b64Char_lt128 _
    · exact h ▸ b64Char_lt128 _
    · simp at h; omega
  | case3 a =>
    intro x hx
    rw [b64encode] at hx
    simp only [List.mem_cons] at hx
    rcases hx with h | h | h | h
    · exact h ▸ b64Char_lt128 _
    · exact h ▸ b64Char_lt128 _
    · omega
    · simp at h; omega
  | case4 => simp [b64encode]

theorem modelDigest_length (msg : Bytes) : (modelDigest msg).length = 16 := by
  simp [modelDigest]

theorem modelDigest_lt (msg : Bytes) : ∀ b ∈ modelDigest msg, b < 256 := by
  intro b hb
  simp only [modelDigest, List.mem_map] at hb
  obtain ⟨i, _, rfl⟩ := hb
  exact Nat.mod_lt _ (by omega)

theorem modelHmac_length (msg : Bytes) : (modelHmac msg).length = 16 := by
  simp [modelHmac]

theorem modelHmac_lt (msg : Bytes) : ∀ b ∈ modelHmac msg, b < 256 := by
  intro b hb
  simp only [modelHmac, List.mem_map] at hb
  obtain ⟨i, _, rfl⟩ := hb
  exact Nat.mod_lt _ (by omega)

theorem hashed_callback_name_length (n : Str) : (hashed_callback_name n).length = 8 := by
  simp [hashed_callback_name, modelDigest_length]

theorem hashed_callback_name_lt (n : Str) : ∀ b ∈ hashed_callback_name n, b < 256 := by
  intro b hb
  exact modelDigest_lt _ b (List.mem_of_mem_take hb)

/-- Successful encoding: for a payload within the size bound, the token is
the base64 prelude (signature then hashed name) followed by the payload
characters, with no error. -/
theorem get_callback_data_eq (bot : PyBot) (chat : Chat) (nameS : Str)
    (dataS : Option Str) (hv : ∀ c ∈ dataS.getD [], ValidScalar c)
    (hlen : (utf8Encode (dataS.getD [])).length ≤ 32) :
    get_callback_data bot chat nameS dataS =
      .ok (b64encode
        (get_signature bot chat (hashed_callback_name nameS)
          (utf8Encode (dataS.getD [])) ++ hashed_callback_name nameS) ++
        dataS.getD []) := by
  simp only [get_callback_data]
  rw [if_neg (by omega)]
  have hascii := mem_b64encode_lt128
    (get_signature bot chat (hashed_callback_name nameS)
      (utf8Encode (dataS.getD [])) ++ hashed_callback_name nameS)
  set pre := get_signature bot chat (hashed_callback_name nameS)
    (utf8Encode (dataS.getD [])) ++ hashed_callback_name nameS with hpre
  have hdec : utf8Decode (b64encode pre ++ utf8Encode (dataS.getD [])) =
      .ok (b64encode pre ++ dataS.getD []) := by
    show utf8DecodeSt none _ = _
    conv_lhs => rw [← utf8Encode_ascii (b64encode pre) hascii]
    rw [← utf8Encode_append]
    have hval : ∀ c ∈ b64encode pre ++ dataS.getD [], ValidScalar c := by
      intro c hc
      rcases List.mem_append.mp hc with h | h
      · have := hascii c h
        constructor
        · omega
        · left; omega
      · exact hv c h
    have := utf8Decode_encode _ hval
    exact this
  rw [hdec]

/-- Parsing a well-formed token: `parse_callback_data` applied to
`base64(sig || name) + payload` recovers the name and payload exactly when
the recomputed signature compares equal to `sig`, and reports tampering
otherwise. -/
theorem parse_of_token (bot : PyBot) (chat : Chat) (sig name : Bytes) (p : Str)
    (hsl : sig.length = 16) (hnl : name.length = 8)
    (hsb : ∀ b ∈ sig, b < 256) (hnb : ∀ b ∈ name, b < 256)
    (hv : ∀ c ∈ p, ValidScalar c) :
    parse_callback_data bot chat (b64encode (sig ++ name) ++ p) =
      if crypto.compare (get_signature bot chat name (utf8Encode p)) sig then
        (if p = [] then .ok (name, none) else .ok (name, some p))
      else .error .tamperedMessage := by
  have hprel : (sig ++ name).length = 24 := by
    rw [List.length_append, hsl, hnl]
  have hpreb : ∀ b ∈ sig ++ name, b < 256 := by
    intro b hb
    rcases List.mem_append.mp hb with h | h
    · exact hsb b h
    · exact hnb b h
  have hblen : (b64encode (sig ++ name)).length = 32 := by
    rw [b64encode_length _ (by omega), hprel]
  have hascii := mem_b64encode_lt128 (sig ++ name)
  have hraw : utf8Encode (b64encode (sig ++ name) ++ p) =
      b64encode (sig ++ name) ++ utf8Encode p := by
    rw [utf8Encode_append, utf8Encode_ascii _ hascii]
  simp only [parse_callback_data]
  rw [hraw]
  rw [if_neg (by rw [List.length_append, hblen]; omega)]
  rw [List.take_left' hblen, b64decodePy_encode _ (by omega) hpreb]
  split
  next heq => simp at heq
  next prel heq =>
  have hpe : prel = sig ++ name := by
    injection heq.symm
  subst hpe
  rw [List.take_left' hsl, List.drop_left' hsl, List.drop_left' hblen]
  by_cases hcmp : crypto.compare (get_signature bot chat name (utf8Encode p)) sig
  · rw [if_neg (by simp [hcmp]), if_pos hcmp]
    by_cases hp : p = []
    · subst hp
      rw [if_neg (by simp [utf8Encode_nil]), if_pos rfl]
    · rw [if_pos (by simpa [Ne, utf8Encode_eq_nil_iff] using hp), if_neg hp]
      rw [show utf8Decode (utf8Encode p) = .ok p from utf8Decode_encode p hv]
  · rw [if_pos (by simpa using hcmp), if_neg hcmp]

theorem insertRow_perm (p : Int × ButtonsRow) (l : List (Int × ButtonsRow)) :
    (insertRow p l).Perm (p :: l) := by
  induction l with
  | nil => exact List.Perm.refl _
  | cons q l ih =>
    rw [insertRow]
    split_ifs with h
    · exact List.Perm.refl _
    · exact (ih.cons q).trans (List.Perm.swap p q l)

theorem sortRows_perm (l : List (Int × ButtonsRow)) : (sortRows l).Perm l := by
  induction l with
  | nil => exact List.Perm.refl _
  | cons p l ih =>
    rw [sortRows]
    exact (insertRow_perm p (sortRows l)).trans (ih.cons p)

theorem insertRow_pairwise (p : Int × ButtonsRow) (l : List (Int × ButtonsRow))
    (h : l.Pairwise fun a b => a.1 ≤ b.1) :
    (insertRow p l).Pairwise fun a b => a.1 ≤ b.1 := by
  induction l with
  | nil => simp [insertRow]
  | cons q l ih =>
    rw [List.pairwise_cons] at h
    rw [insertRow]
    split_ifs with hle
    · refine List.Pairwise.cons ?_ (List.Pairwise.cons h.1 h.2)
      intro x hx
      rcases List.mem_cons.mp hx with rfl | hx
      · exact hle
      · exact le_trans hle (h.1 x hx)
    · refine List.Pairwise.cons ?_ (ih h.2)
      intro x hx
      rcases List.mem_cons.mp ((insertRow_perm p l).mem_iff.mp hx) with rfl | hx
      · omega
      · exact h.1 x hx

theorem sortRows_pairwise (l : List (Int × ButtonsRow)) :
    (sortRows l).Pairwise fun a b => a.1 ≤ b.1 := by
  induction l with
  | nil => simp [sortRows]
  | cons p l ih => exact insertRow_pairwise p (sortRows l) ih

theorem mapM_ok_forall2 {α β : Type} (f : α → Except PyError β) :
    ∀ (l : List α) (res : List β), l.mapM f = .ok res →
      List.Forall₂ (fun a b => f a = .ok b) l res := by
  intro l
  induction l with
  | nil =>
    intro res h
    simp only [List.mapM_nil, pure, Except.pure] at h
    injection h with h
    subst h
    exact List.Forall₂.nil
  | cons a l ih =>
    intro res h
    rw [List.mapM_cons] at h
    cases hfa : f a with
    | error e => rw [hfa] at h; simp [Bind.bind, Except.bind] at h
    | ok b =>
      rw [hfa] at h
      cases hfl : l.mapM f with
      | error e => rw [hfl] at h; simp [Bind.bind, Except.bind] at h
      | ok bs =>
        rw [hfl] at h
        simp only [Bind.bind, Except.bind, pure, Except.pure] at h
        injection h with h
        subst h
        exact List.Forall₂.cons hfa (ih bs hfl)

theorem processHooks_all_false (bot : PyBot) (u : Update) (name : Bytes)
    (data : Option Str) (hs : List Hook)
    (h : ∀ hk ∈ hs, isTrueVal (hk.call bot u name data) = false) :
    processHooks bot u name data hs =
      hs.map (fun hk => LogEvent.debugProcessing u.update_id hk.name) ++
        [LogEvent.debugUnclaimed u.update_id] := by
  induction hs with
  | nil => simp [processHooks]
  | cons hk hs ih =>
    rw [processHooks, if_neg (by rw [h hk (by simp)]; simp)]
    rw [ih (fun x hx => h x (by simp [hx]))]
    simp

theorem processHooks_eq (bot : PyBot) (u : Update) (name : Bytes)
    (data : Option Str) (hs : List Hook) :
    processHooks bot u name data hs =
      ((hs.takeWhile fun hk => !isTrueVal (hk.call bot u name data)).map
        fun hk => LogEvent.debugProcessing u.update_id hk.name) ++
      (match hs.dropWhile (fun hk => !isTrueVal (hk.call bot u name data)) with
       | [] => [LogEvent.debugUnclaimed u.update_id]
       | hk :: _ => [LogEvent.debugProcessing u.update_id hk.name,
                     LogEvent.debugHandled u.update_id hk.name]) := by
  induction hs with
  | nil => simp [processHooks]
  | cons hk hs ih =>
    cases htv : isTrueVal (hk.call bot u name data) with
    | true =>
      rw [processHooks, if_pos (by rw [htv])]
      rw [List.takeWhile_cons, List.dropWhile_cons]
      simp [htv]
    | false =>
      rw [processHooks, if_neg (by rw [htv]; simp)]
      rw [List.takeWhile_cons, List.dropWhile_cons]
      simp only [htv, Bool.not_false, if_pos, List.map_cons]
      rw [ih]
      simp

/-- A concrete bot for witnesses, carrying the modelled keyed hash. -/
def botW : PyBot := ⟨modelHmac⟩

/-- A concrete chat for witnesses. -/
def chatW : Chat := ⟨77⟩

/-- A concrete callback name for witnesses (the code points of "core:go"). -/
def nameW : Str := [99, 111, 114, 101, 58, 103, 111]

/-- The signature message of an empty-payload token for `chatW` with the
two-byte name `AA`. -/
def msgEmptyW : Bytes := [65, 65] ++ [0] ++ strOfInt 77 ++ [0]

/-- A 28-character raw string whose UTF-8 encoding is 32 bytes: a 24-char
base64 prelude carrying a valid signature over a 2-byte name and empty
payload, padded to 32 bytes with four U+0080 characters (their encodings
are discarded by the lenient base64 decoder). -/
def rawShortW : Str := b64encode (modelHmac msgEmptyW ++ [65, 65]) ++ [0x80, 0x80, 0x80, 0x80]

/-- The signature message of a token for `chatW` whose payload byte 0xA1 is
not valid UTF-8. -/
def msgBadUtf8W : Bytes := [65, 65] ++ [0] ++ strOfInt 77 ++ [0] ++ [0xA1]

/-- A raw string whose 32-byte prefix holds a validly signed prelude and
whose payload region is the single continuation byte 0xA1 (the trailing
U+00A1 straddles the 32-byte boundary), so the signature verifies and the
payload fails UTF-8 decoding. -/
def rawBadUtf8W : Str :=
  b64encode (modelHmac msgBadUtf8W ++ [65, 65]) ++ [0x80, 0x80, 0x80, 0x21, 0xA1]

/-- A 32-character raw string with one base64 character: the 31 data
characters after filtering leave a quad remainder, so base64 decoding fails. -/
def rawB64FailW : Str := List.replicate 31 65 ++ [33]

/-- A 32-character raw string of base64 characters whose decoded signature
does not match the recomputed one. -/
def rawSigFailW : Str := List.replicate 32 65

/-- Claim C1 — counterexample. The round trip does not return the payload
itself when the payload is the empty string (0 bytes, within the 32-byte
bound): decoding yields the absent payload `None`, not the empty string. -/
theorem c1_roundtrip_counterexample :
    (get_callback_data botW chatW nameW (some [])).bind (parse_callback_data botW chatW) =
      .ok (hashed_callback_name nameW, none) ∧
    (get_callback_data botW chatW nameW (some [])).bind (parse_callback_data botW chatW) ≠
      .ok (hashed_callback_name nameW, some []) := by
  exact ⟨by decide, by decide⟩

/-- Claim C1 (amended). Round-trip: for every bot, chat, name and scalar
payload of at most 32 UTF-8 bytes (with the keyed digest honouring its
16-byte contract), decoding the encoded token returns the hashed name
together with the payload — as `some p` for a non-empty payload and as the
absent value `none` when the payload is empty. -/
theorem c1_roundtrip_amended (bot : PyBot) (chat : Chat) (n p : Str)
    (hv : ∀ c ∈ p, ValidScalar c)
    (hlen : (utf8Encode p).length ≤ 32)
    (hsl : (get_signature bot chat (hashed_callback_name n) (utf8Encode p)).length = 16)
    (hsb : ∀ b ∈ get_signature bot chat (hashed_callback_name n) (utf8Encode p), b < 256) :
    (get_callback_data bot chat n (some p)).bind (parse_callback_data bot chat) =
      .ok (hashed_callback_name n, if p = [] then none else some p) := by
  rw [get_callback_data_eq bot chat n (some p) hv hlen]
  simp only [Option.getD_some]
  show parse_callback_data bot chat _ = _
  rw [parse_of_token bot chat _ _ p hsl (hashed_callback_name_length n) hsb
    (hashed_callback_name_lt n) hv]
  rw [if_pos (by simp [crypto.compare])]
  by_cases hp : p = [] <;> simp [hp]

/-- Claim C1 (amended) — witness at a concrete non-empty payload. -/
theorem c1_roundtrip_amended_witness :
    (get_callback_data botW chatW nameW (some [104, 105])).bind
      (parse_callback_data botW chatW) =
      .ok (hashed_callback_name nameW, some [104, 105]) := by
  have h := c1_roundtrip_amended botW chatW nameW [104, 105] (by decide) (by decide)
    (by decide) (by decide)
  exact h.trans (by decide)

/-- Claim C2. Chat binding: a token encoded for chat `c1` fails to decode
against a chat `c2` with a different id, with the tampered condition,
whenever the keyed digest separates the two chat-bound messages (the
collision-freeness the spec's digest contract idealizes; no fixed-width
digest can provide it for every pair of chats outright). -/
theorem c2_chat_binding (bot : PyBot) (c1 c2 : Chat) (n : Str) (dataS : Option Str)
    (hv : ∀ c ∈ dataS.getD [], ValidScalar c)
    (hlen : (utf8Encode (dataS.getD [])).length ≤ 32)
    (hsl : (get_signature bot c1 (hashed_callback_name n)
      (utf8Encode (dataS.getD []))).length = 16)
    (hsb : ∀ b ∈ get_signature bot c1 (hashed_callback_name n)
      (utf8Encode (dataS.getD [])), b < 256)
    (hcc : c1.id ≠ c2.id)
    (hne : get_signature bot c2 (hashed_callback_name n) (utf8Encode (dataS.getD [])) ≠
      get_signature bot c1 (hashed_callback_name n) (utf8Encode (dataS.getD []))) :
    (get_callback_data bot c1 n dataS).bind (parse_callback_data bot c2) =
      .error .tamperedMessage := by
  rw [get_callback_data_eq bot c1 n dataS hv hlen]
  show parse_callback_data bot c2 _ = _
  rw [parse_of_token bot c2 _ _ _ hsl (hashed_callback_name_length n) hsb
    (hashed_callback_name_lt n) hv]
  rw [if_neg (by simp [crypto.compare, hne])]

/-- Claim C2 — witness: two concrete chats with different ids whose
signatures differ under the modelled keyed hash. -/
theorem c2_chat_binding_witness :
    (get_callback_data botW ⟨77⟩ nameW (some [104])).bind (parse_callback_data botW ⟨78⟩) =
      .error .tamperedMessage :=
  c2_chat_binding botW ⟨77⟩ ⟨78⟩ nameW (some [104]) (by decide) (by decide)
    (by decide) (by decide) (by decide) (by decide)

/-- Claim C3 — counterexample. A failure of decode after successful
signature verification on a malformed UTF-8 payload raises
`UnicodeDecodeError`, a distinct error class, not the tampered condition:
the source does not catch the `bytes.decode("utf-8")` failure. -/
theorem c3_tamper_uniformity_counterexample :
    parse_callback_data botW chatW rawBadUtf8W = .error .unicodeDecodeError ∧
    PyError.unicodeDecodeError ≠ PyError.tamperedMessage := by
  exact ⟨by decide, by decide⟩

/-- Claim C3 (amended). Too-short input, base64 decode failure of the
32-byte prefix, and signature mismatch all raise the same tampered
condition; but a malformed UTF-8 payload after successful signature
verification raises `UnicodeDecodeError` instead, and these two are the
only error classes `parse_callback_data` can produce. -/
theorem c3_tamper_uniformity_amended (bot : PyBot) (chat : Chat) (rawS : Str) :
    ((utf8Encode rawS).length < 32 →
      parse_callback_data bot chat rawS = .error .tamperedMessage) ∧
    (b64decodePy ((utf8Encode rawS).take 32) = .error () →
      parse_callback_data bot chat rawS = .error .tamperedMessage) ∧
    (∀ prel, b64decodePy ((utf8Encode rawS).take 32) = .ok prel →
      crypto.compare
        (get_signature bot chat (prel.drop 16) ((utf8Encode rawS).drop 32))
        (prel.take 16) = false →
      parse_callback_data bot chat rawS = .error .tamperedMessage) ∧
    (∀ e, parse_callback_data bot chat rawS = .error e →
      e = .tamperedMessage ∨ e = .unicodeDecodeError) := by
  refine ⟨?_, ?_, ?_, ?_⟩
  · intro h
    simp only [parse_callback_data]
    rw [if_pos h]
  · intro h
    simp only [parse_callback_data]
    by_cases hl : (utf8Encode rawS).length < 32
    · rw [if_pos hl]
    · rw [if_neg hl, h]
  · intro prel hok hc
    simp only [parse_callback_data]
    by_cases hl : (utf8Encode rawS).length < 32
    · rw [if_pos hl]
    · rw [if_neg hl, hok]
      split
      next a heq => rfl
      next prel2 heq =>
        have hpp : prel = prel2 := by injection heq
        subst hpp
        rw [if_pos (by simp [hc])]
  · intro e he
    simp only [parse_callback_data] at he
    split at he
    · exact Or.inl (by injection he with h; exact h.symm)
    · split at he
      · exact Or.inl (by injection he with h; exact h.symm)
      · split at he
        · exact Or.inl (by injection he with h; exact h.symm)
        · split at he
          · split at he
            · cases he
            · exact Or.inr (by injection he with h; exact h.symm)
          · cases he

/-- Claim C3 (amended) — witness: each of the three tampered failure modes
and the classification at concrete inputs. -/
theorem c3_tamper_uniformity_witness :
    parse_callback_data botW chatW [33] = .error .tamperedMessage ∧
    parse_callback_data botW chatW rawB64FailW = .error .tamperedMessage ∧
    parse_callback_data botW chatW rawSigFailW = .error .tamperedMessage ∧
    (PyError.tamperedMessage = .tamperedMessage ∨
      PyError.tamperedMessage = .unicodeDecodeError) := by
  refine ⟨?_, ?_, ?_, ?_⟩
  · exact (c3_tamper_uniformity_amended botW chatW [33]).1 (by decide)
  · exact (c3_tamper_uniformity_amended botW chatW rawB64FailW).2.1 (by decide)
  · exact (c3_tamper_uniformity_amended botW chatW rawSigFailW).2.2.1
      (List.replicate 24 0) (by decide) (by decide)
  · exact (c3_tamper_uniformity_amended botW chatW [33]).2.2.2 .tamperedMessage
      ((c3_tamper_uniformity_amended botW chatW [33]).1 (by decide))

/-- Claim C4. Payload size boundary: a scalar payload of exactly 32 UTF-8
bytes encodes successfully, and any payload of 33 bytes or more is rejected
with `ValueError`; the rejection is independent of the bot's keyed hash,
which is universally quantified, so no signature enters the outcome. -/
theorem c4_payload_size_boundary (bot : PyBot) (chat : Chat) (n p : Str)
    (hv : ∀ c ∈ p, ValidScalar c) :
    ((utf8Encode p).length = 32 →
      (get_callback_data bot chat n (some p)).isOk = true) ∧
    (33 ≤ (utf8Encode p).length →
      get_callback_data bot chat n (some p) = .error .valueError) := by
  constructor
  · intro h
    rw [get_callback_data_eq bot chat n (some p) hv (by simpa using le_of_eq h)]
    rfl
  · intro h
    simp only [get_callback_data]
    rw [if_pos (by simpa using h)]

/-- Claim C4 — witness at 32- and 33-byte payloads. -/
theorem c4_payload_size_boundary_witness :
    (get_callback_data botW chatW nameW (some (List.replicate 32 97))).isOk = true ∧
    get_callback_data botW chatW nameW (some (List.replicate 33 97)) =
      .error .valueError := by
  constructor
  · exact (c4_payload_size_boundary botW chatW nameW (List.replicate 32 97)
      (by decide)).1 (by decide)
  · exact (c4_payload_size_boundary botW chatW nameW (List.replicate 33 97)
      (by decide)).2 (by decide)

/-- Claim C5 — counterexample. A raw string of 28 characters (at most 31),
made of scalar code points, decodes successfully: multibyte characters let
a short string carry the full 32-byte prelude, so the claim's
31-character bound does not make decoding fail. -/
theorem c5_min_length_counterexample :
    rawShortW.length ≤ 31 ∧ (∀ c ∈ rawShortW, ValidScalar c) ∧
    (parse_callback_data botW chatW rawShortW).isOk = true := by
  exact ⟨by decide, by decide, by decide⟩

/-- Claim C5 (amended). Minimum-length boundary: every raw scalar input
whose UTF-8 encoding is at most 31 bytes fails decode with the tampered
condition — the source's check counts bytes of the encoded string, not
characters. -/
theorem c5_min_length_amended (bot : PyBot) (chat : Chat) (rawS : Str)
    (hv : ∀ c ∈ rawS, ValidScalar c)
    (hlen : (utf8Encode rawS).length ≤ 31) :
    parse_callback_data bot chat rawS = .error .tamperedMessage := by
  simp only [parse_callback_data]
  rw [if_pos (by omega)]

/-- Claim C5 (amended) — witness at a one-character input. -/
theorem c5_min_length_witness :
    parse_callback_data botW chatW [33] = .error .tamperedMessage :=
  c5_min_length_amended botW chatW [33] (by decide) (by decide)

/-- A hook returning the truthy non-boolean `1`. -/
def hookA : Hook := ⟨[65], fun _ _ _ _ => .pyInt 1⟩

/-- A hook returning the boolean `True`. -/
def hookB : Hook := ⟨[66], fun _ _ _ _ => .pyBool true⟩

/-- A hook returning the boolean `False`. -/
def hookF : Hook := ⟨[70], fun _ _ _ _ => .pyBool false⟩

/-- A genuine token for `chatW`, produced by the encoder with no payload. -/
def tokenW : Str := (get_callback_data botW chatW nameW none).toOption.getD []

/-- An update carrying the genuine token. -/
def updW : Update := ⟨7, chatW, tokenW⟩

/-- An update carrying a one-character (tampered) token. -/
def updBadW : Update := ⟨8, chatW, [33]⟩

/-- Claim C6 — counterexample. The scan does not stop at the first hook
returning a true-equivalent result: with hooks `[A, B]` where `A` returns
the truthy value `1` and `B` returns `True`, `B` is still invoked (the
source tests `result is True`, not truthiness), although the claim implies
no hook after `A` ever executes. -/
theorem c6_first_match_counterexample :
    truthy (PyVal.pyInt 1) = true ∧
    process botW [hookA, hookB] updW =
      .ok [LogEvent.debugProcessing 7 [65], LogEvent.debugProcessing 7 [66],
        LogEvent.debugHandled 7 [66]] := by
  exact ⟨by decide, by decide⟩

/-- Claim C6 (amended). Dispatcher first-match: on a successfully decoded
event, hooks run in registration order with the hashed name and payload;
the scan stops at the first hook whose result is exactly the boolean
`True` (`result is True`), and a merely truthy result does not stop it;
the trace is the processed prefix followed by either the handling hook's
two log events or the unclaimed notice, so at most one hook handles the
event. -/
theorem c6_first_match_amended (bot : PyBot) (hooks : List Hook) (u : Update)
    (name : Bytes) (data : Option Str)
    (hok : parse_callback_data bot u.chat u.data = .ok (name, data)) :
    process bot hooks u = .ok (
      ((hooks.takeWhile fun hk => !isTrueVal (hk.call bot u name data)).map
        fun hk => LogEvent.debugProcessing u.update_id hk.name) ++
      (match hooks.dropWhile fun hk => !isTrueVal (hk.call bot u name data) with
       | [] => [LogEvent.debugUnclaimed u.update_id]
       | hk :: _ => [LogEvent.debugProcessing u.update_id hk.name,
           LogEvent.debugHandled u.update_id hk.name])) := by
  simp only [process, hok]
  rw [processHooks_eq]

/-- Claim C6 (amended) — witness: a false-returning hook followed by a
`True`-returning one; both are processed and the second handles. -/
theorem c6_first_match_witness :
    process botW [hookF, hookB] updW =
      .ok [LogEvent.debugProcessing 7 [70], LogEvent.debugProcessing 7 [66],
        LogEvent.debugHandled 7 [66]] := by
  have h := c6_first_match_amended botW [hookF, hookB] updW
    (hashed_callback_name nameW) none (by decide)
  exact h.trans (by decide)

/-- Claim C7. Dispatcher tamper handling and no-match consumption: when
decoding fails with the tampered condition, `process` emits exactly the
warning log — no hook is invoked and no error escapes; when decoding
succeeds and no hook returns `True`, every hook is processed in order and
the event ends consumed with the unclaimed notice, again with no error. -/
theorem c7_dispatcher_consumption (bot : PyBot) (hooks : List Hook) (u : Update) :
    (parse_callback_data bot u.chat u.data = .error .tamperedMessage →
      process bot hooks u = .ok [LogEvent.warnTampered u.update_id]) ∧
    (∀ name data, parse_callback_data bot u.chat u.data = .ok (name, data) →
      (∀ hk ∈ hooks, isTrueVal (hk.call bot u name data) = false) →
      process bot hooks u = .ok
        (hooks.map (fun hk => LogEvent.debugProcessing u.update_id hk.name) ++
          [LogEvent.debugUnclaimed u.update_id])) := by
  constructor
  · intro h
    simp only [process, h]
  · intro name data h hall
    simp only [process, h]
    rw [processHooks_all_false bot u name data hooks hall]

/-- Claim C7 — witness: a tampered update produces only the warning, and a
genuine one with a false-returning hook ends unclaimed. -/
theorem c7_dispatcher_consumption_witness :
    process botW [hookF] updBadW = .ok [LogEvent.warnTampered 8] ∧
    process botW [hookF] updW =
      .ok [LogEvent.debugProcessing 7 [70], LogEvent.debugUnclaimed 7] := by
  constructor
  · exact (c7_dispatcher_consumption botW [hookF] updBadW).1 (by decide)
  · have h := (c7_dispatcher_consumption botW [hookF] updW).2
      (hashed_callback_name nameW) none (by decide) (by decide)
    exact h.trans (by decide)

/-- A keyboard whose rows were accessed in the order 2, 0, 1. -/
def bttns201W : Buttons := ((buttons.getItem 2).getItem 0).getItem 1

/-- A keyboard with URL buttons only at row indices 0 and 5, the row at
index 5 filled first. -/
def bttns05W : Buttons :=
  (buttons.modifyRow 5 fun r => r.url [97] [98]).modifyRow 0 fun r => r.url [99] [100]

/-- Claim C8. Keyboard serialization order: on success, the emitted rows
are exactly the stored rows (a permutation of the populated indices, one
output row per stored row, in one-to-one order-preserving correspondence
with the sorted item list), with row indices strictly ascending — never
insertion order — and no rows for absent indices. -/
theorem c8_keyboard_order (bot : PyBot) (chat : Chat) (b : Buttons)
    (res : List (List RenderedItem))
    (hnd : (b.rows.map Prod.fst).Nodup)
    (hok : b.serialize_attachment bot chat = .ok res) :
    ((sortRows b.rows).map Prod.fst).Pairwise (· < ·) ∧
    ((sortRows b.rows).map Prod.fst).Perm (b.rows.map Prod.fst) ∧
    List.Forall₂ (fun pr out => ButtonsRow.get_content bot chat pr.2 = .ok out)
      (sortRows b.rows) res ∧
    res.length = b.rows.length := by
  have hperm : ((sortRows b.rows).map Prod.fst).Perm (b.rows.map Prod.fst) :=
    (sortRows_perm b.rows).map Prod.fst
  have hnd2 : ((sortRows b.rows).map Prod.fst).Nodup := hperm.nodup_iff.mpr hnd
  have hle : ((sortRows b.rows).map Prod.fst).Pairwise (· ≤ ·) := by
    rw [List.pairwise_map]
    exact sortRows_pairwise b.rows
  have hok2 : (sortRows b.rows).mapM (fun pr => ButtonsRow.get_content bot chat pr.2) =
      .ok res := hok
  have hf2 := mapM_ok_forall2 (fun pr => ButtonsRow.get_content bot chat pr.2)
    (sortRows b.rows) res hok2
  refine ⟨?_, hperm, hf2, ?_⟩
  · exact (hle.and hnd2).imp fun h => lt_of_le_of_ne h.1 h.2
  · rw [← hf2.length_eq, (sortRows_perm b.rows).length_eq]

/-- Claim C8 — witness: rows accessed in order 2, 0, 1 serialize as three
rows with indices ascending, and rows only at 0 and 5 serialize as exactly
those two rows in that order. -/
theorem c8_keyboard_order_witness :
    bttns201W.serialize_attachment botW chatW = .ok [[], [], []] ∧
    ((sortRows bttns201W.rows).map Prod.fst).Pairwise (· < ·) ∧
    ([[], [], []] : List (List RenderedItem)).length = bttns201W.rows.length ∧
    bttns05W.serialize_attachment botW chatW =
      .ok [[.urlBtn [99] [100]], [.urlBtn [97] [98]]] := by
  refine ⟨by decide, ?_, ?_, by decide⟩
  · exact (c8_keyboard_order botW chatW bttns201W [[], [], []]
      (by decide) (by decide)).1
  · exact (c8_keyboard_order botW chatW bttns201W [[], [], []]
      (by decide) (by decide)).2.2.2

/-- Claim C9. Wire format: the token is the base64 encoding of the 16-byte
signature concatenated with the 8-byte hashed name, followed by the raw
payload; the signature is the keyed digest of
`HashedName || 0x00 || str(ChatID) || 0x00 || Payload`; the prelude is 24
bytes, its base64 form 32 characters, and it decodes back to
signature-then-name. -/
theorem c9_wire_format (bot : PyBot) (chat : Chat) (n p : Str)
    (hv : ∀ c ∈ p, ValidScalar c)
    (hlen : (utf8Encode p).length ≤ 32)
    (hsl : (get_signature bot chat (hashed_callback_name n) (utf8Encode p)).length = 16)
    (hsb : ∀ b ∈ get_signature bot chat (hashed_callback_name n) (utf8Encode p),
      b < 256) :
    get_callback_data bot chat n (some p) =
      .ok (b64encode (get_signature bot chat (hashed_callback_name n) (utf8Encode p) ++
        hashed_callback_name n) ++ p) ∧
    get_signature bot chat (hashed_callback_name n) (utf8Encode p) =
      bot.hmac (hashed_callback_name n ++ [0] ++ strOfInt chat.id ++ [0] ++
        utf8Encode p) ∧
    (get_signature bot chat (hashed_callback_name n) (utf8Encode p) ++
      hashed_callback_name n).length = 24 ∧
    (b64encode (get_signature bot chat (hashed_callback_name n) (utf8Encode p) ++
      hashed_callback_name n)).length = 32 ∧
    b64decodePy (b64encode
      (get_signature bot chat (hashed_callback_name n) (utf8Encode p) ++
        hashed_callback_name n)) =
      .ok (get_signature bot chat (hashed_callback_name n) (utf8Encode p) ++
        hashed_callback_name n) := by
  have hl24 : (get_signature bot chat (hashed_callback_name n) (utf8Encode p) ++
      hashed_callback_name n).length = 24 := by
    rw [List.length_append, hsl, hashed_callback_name_length]
  have hb : ∀ x ∈ get_signature bot chat (hashed_callback_name n) (utf8Encode p) ++
      hashed_callback_name n, x < 256 := by
    intro x hx
    rcases List.mem_append.mp hx with h | h
    · exact hsb x h
    · exact hashed_callback_name_lt n x h
  refine ⟨?_, rfl, hl24, ?_, ?_⟩
  · have h := get_callback_data_eq bot chat n (some p) (by simpa using hv)
      (by simpa using hlen)
    simpa using h
  · rw [b64encode_length _ (by omega), hl24]
  · exact b64decodePy_encode _ (by omega) hb

/-- Claim C9 — witness at a concrete one-byte payload. -/
theorem c9_wire_format_witness :
    get_callback_data botW chatW nameW (some [104]) =
      .ok (b64encode (get_signature botW chatW (hashed_callback_name nameW)
        (utf8Encode [104]) ++ hashed_callback_name nameW) ++ [104]) ∧
    (b64encode (get_signature botW chatW (hashed_callback_name nameW)
      (utf8Encode [104]) ++ hashed_callback_name nameW)).length = 32 := by
  have h := c9_wire_format botW chatW nameW [104] (by decide) (by decide)
    (by decide) (by decide)
  exact ⟨h.1, h.2.2.2.1⟩

/-- Claim C10. Omitted payload equals empty payload: encoding with payload
`None` yields exactly the token of the empty-string payload, and decoding
that token returns the absent payload `None`, never the empty string. -/
theorem c10_none_empty_payload (bot : PyBot) (chat : Chat) (n : Str)
    (hsl : (get_signature bot chat (hashed_callback_name n) []).length = 16)
    (hsb : ∀ b ∈ get_signature bot chat (hashed_callback_name n) [], b < 256) :
    get_callback_data bot chat n none = get_callback_data bot chat n (some []) ∧
    (get_callback_data bot chat n none).bind (parse_callback_data bot chat) =
      .ok (hashed_callback_name n, none) := by
  constructor
  · rfl
  · rw [get_callback_data_eq bot chat n none (by simp) (by simp [utf8Encode_nil])]
    simp only [Option.getD_none, utf8Encode_nil]
    show parse_callback_data bot chat _ = _
    rw [parse_of_token bot chat _ _ [] hsl (hashed_callback_name_length n) hsb
      (hashed_callback_name_lt n) (by simp)]
    rw [if_pos (by simp [crypto.compare, utf8Encode_nil]), if_pos rfl]

/-- Claim C10 — witness at concrete bot, chat and name. -/
theorem c10_none_empty_payload_witness :
    get_callback_data botW chatW nameW none =
      get_callback_data botW chatW nameW (some []) ∧
    (get_callback_data botW chatW nameW none).bind (parse_callback_data botW chatW) =
      .ok (hashed_callback_name nameW, none) :=
  c10_none_empty_payload botW chatW nameW (by decide) (by decide)
